import Mathlib

/-!
Shallow embedding of the kurbo-cpp geometry core.

The C++ code computes with IEEE doubles; here doubles are idealised as real
numbers.  Consequences of that idealisation, recorded once and for all:

* arithmetic on finite inputs never overflows, so `std::isfinite` guards on
  sums/products of finite values are vacuously true and are dropped where that
  is proved in a comment at the site;
* a quotient `x / y` is non-finite in C++ exactly when `y = 0` (for finite
  `x`, `y`), so `isfinite(x / y)` is modelled as the test `y ≠ 0`;
* division by zero in Lean yields `0` (junk), which is only ever exercised on
  branches the C++ code guards with the corresponding `isfinite` test.

Every definition mirrors one function of the C++ sources; names follow the
source names.
-/

namespace Kurbo

/-- 2D point with real coordinates (`point.hpp`); `Point()` is the origin. -/
structure Point where
  x : ℝ
  y : ℝ

noncomputable instance : DecidableEq Point := Classical.decEq _

namespace Point

/-- `Point::lerp` via `Vec2::lerp`: `*this + t*(other - *this)` (`vec2.cpp`). -/
noncomputable def lerp (p q : Point) (t : ℝ) : Point :=
  ⟨p.x + t * (q.x - p.x), p.y + t * (q.y - p.y)⟩

/-- `Point::midpoint` (`point.cpp`). -/
noncomputable def midpoint (p q : Point) : Point :=
  ⟨(1/2) * (p.x + q.x), (1/2) * (p.y + q.y)⟩

/-- `Vec2::cross` of the two position vectors: `x * other.y - y * other.x`. -/
noncomputable def cross (p q : Point) : ℝ := p.x * q.y - p.y * q.x

theorem ext_iff' (p q : Point) : p = q ↔ p.x = q.x ∧ p.y = q.y := by
  constructor
  · intro h; subst h; exact ⟨rfl, rfl⟩
  · rintro ⟨hx, hy⟩; cases p; cases q; simp_all

end Point

/-! ## Root-solving kernel (`common.cpp`) -/

/-- `solve_quadratic(c0, c1, c2)` from `common.cpp`, solving
`c0 + c1*x + c2*x² = 0`.

Over the reals: in the `c2 == 0` branch, `-c0/c1` is finite iff `c1 ≠ 0`
(modelling `isfinite`); the `!isfinite(sc0) || !isfinite(sc1)` and
`!isfinite(arg)` overflow guards never fire (finite real arithmetic), and
`root2 = sc0/root1` is always finite because `root1 ≠ 0` whenever `arg > 0`
(proved in `solve_quadratic_root1_ne_zero` below). -/
noncomputable def solve_quadratic (c0 c1 c2 : ℝ) : List ℝ :=
  if c2 = 0 then
    if c1 ≠ 0 then [-c0 / c1]
    else if c0 = 0 ∧ c1 = 0 then [0]
    else []
  else
    let sc0 := c0 / c2
    let sc1 := c1 / c2
    let arg := sc1 * sc1 - 4 * sc0
    if arg < 0 then []
    else if arg = 0 then [-(1/2) * sc1]
    else
      let root1 := -(1/2) * (sc1 + Real.sqrt arg * (if sc1 ≥ 0 then 1 else -1))
      let root2 := sc0 / root1
      if root2 > root1 then [root1, root2] else [root2, root1]

/-- The case analysis for `solve_quadratic` as the specification words it
(degenerate-linear cases, discriminant sign analysis, numerically stable
root pair sorted ascending).  `sign(sc1)` is the code's convention
`sc1 >= 0 ? 1 : -1`, which the spec's own example `solve_quadratic(-5,0,1)`
forces (a `sign 0 = 0` reading would produce a division by a zero root). -/
noncomputable def solve_quadratic_spec (c0 c1 c2 : ℝ) : List ℝ :=
  if c2 = 0 then
    -- linear degradation: single root 0.0 iff c0 = c1 = 0, else -c0/c1 if finite
    if c0 = 0 ∧ c1 = 0 then [0]
    else if c1 ≠ 0 then [-c0 / c1]
    else []
  else
    let sc0 := c0 / c2
    let sc1 := c1 / c2
    let arg := sc1 * sc1 - 4 * sc0
    if arg < 0 then []
    else if arg = 0 then [-(1/2) * sc1]
    else
      let root1 := -(1/2) * (sc1 + (if sc1 ≥ 0 then 1 else -1) * Real.sqrt arg)
      let root2 := sc0 / root1
      if root1 ≤ root2 then [root1, root2] else [root2, root1]

theorem solve_quadratic_root1_ne_zero (sc1 arg : ℝ) (h : 0 < arg) :
    -(1/2) * (sc1 + Real.sqrt arg * (if sc1 ≥ 0 then 1 else -1)) ≠ 0 := by
  have hs : 0 < Real.sqrt arg := Real.sqrt_pos.mpr h
  by_cases hc : sc1 ≥ 0
  · simp only [hc, if_pos, mul_one]
    have : 0 < sc1 + Real.sqrt arg := by linarith
    intro hcon
    nlinarith
  · simp only [hc, if_neg, not_false_iff, mul_neg_one]
    push_neg at hc
    have : sc1 - Real.sqrt arg < 0 := by linarith
    intro hcon
    nlinarith

private lemma sqrt_twenty : Real.sqrt 20 = 2 * Real.sqrt 5 := by
  rw [show (20 : ℝ) = 4 * 5 by norm_num,
    Real.sqrt_mul (by norm_num : (0:ℝ) ≤ 4),
    show Real.sqrt 4 = 2 by
      rw [show (4 : ℝ) = 2 ^ 2 by norm_num, Real.sqrt_sq (by norm_num : (0:ℝ) ≤ 2)]]

private lemma sqrt_five_pos : 0 < Real.sqrt 5 := Real.sqrt_pos.mpr (by norm_num)

/-- C1: `solve_quadratic` implements the specified case analysis (linear
degradation when `c2 = 0`, discriminant analysis after normalising by `c2`,
numerically stable ascending root pair), and `solve_quadratic(-5, 0, 1)`
yields `{-√5, √5}`. -/
theorem solve_quadratic_meets_spec :
    (∀ c0 c1 c2 : ℝ, solve_quadratic c0 c1 c2 = solve_quadratic_spec c0 c1 c2) ∧
    solve_quadratic (-5) 0 1 = [-Real.sqrt 5, Real.sqrt 5] := by
  constructor
  · intro c0 c1 c2
    unfold solve_quadratic solve_quadratic_spec
    by_cases hc2 : c2 = 0
    · simp only [hc2, if_pos rfl] at *
      by_cases hc1 : c1 = 0
      · simp [hc1]
      · have : ¬ (c0 = 0 ∧ c1 = 0) := fun h => hc1 h.2
        simp [hc1, this]
    · simp only [hc2, if_neg, ite_false]
      set sc0 := c0 / c2
      set sc1 := c1 / c2
      set arg := sc1 * sc1 - 4 * sc0 with harg
      by_cases h1 : arg < 0
      · simp [h1]
      · by_cases h2 : arg = 0
        · simp [h1, h2]
        · have hpos : 0 < arg := lt_of_le_of_ne (not_lt.mp h1) (Ne.symm h2)
          simp only [h1, h2, ite_false]
          have hcomm :
              -(1/2) * (sc1 + Real.sqrt arg * (if sc1 ≥ 0 then 1 else -1)) =
              -(1/2) * (sc1 + (if sc1 ≥ 0 then 1 else -1) * Real.sqrt arg) := by
            ring_nf
          rw [hcomm]
          set root1 := -(1/2) * (sc1 + (if sc1 ≥ 0 then 1 else -1) * Real.sqrt arg)
          set root2 := sc0 / root1
          rcases lt_trichotomy root1 root2 with h | h | h
          · rw [if_pos h, if_pos (le_of_lt h)]
          · rw [if_neg (by rw [h]; exact lt_irrefl _), if_pos (le_of_eq h), h]
          · rw [if_neg (not_lt.mpr (le_of_lt h)), if_neg (not_le.mpr h)]
  · unfold solve_quadratic
    norm_num
    rw [sqrt_twenty, show (1/2 : ℝ) * (2 * Real.sqrt 5) = Real.sqrt 5 by ring,
      show (5 : ℝ) / Real.sqrt 5 = Real.sqrt 5 from Real.div_sqrt]
    rw [if_pos (by nlinarith [sqrt_five_pos] : -Real.sqrt 5 < Real.sqrt 5)]

/-- `std::cbrt`: real cube root, odd extension to negative arguments. -/
noncomputable def cbrt (x : ℝ) : ℝ :=
  if 0 ≤ x then x ^ ((1:ℝ)/3) else -((-x) ^ ((1:ℝ)/3))

/-- `std::atan2(y, x)`: angle of the vector `(x, y)` in `(-π, π]`. -/
noncomputable def atan2 (y x : ℝ) : ℝ :=
  if 0 < x then Real.arctan (y / x)
  else if x < 0 then
    (if 0 ≤ y then Real.arctan (y / x) + Real.pi else Real.arctan (y / x) - Real.pi)
  else
    (if 0 < y then Real.pi / 2 else if y < 0 then -(Real.pi / 2) else 0)

/-- `solve_cubic(c0, c1, c2, c3)` from `common.cpp`, solving
`c0 + c1*x + c2*x² + c3*x³ = 0` (trigonometric/Cardano hybrid).

Over the reals the `!isfinite(scaled_c0) || !isfinite(scaled_c1) ||
!isfinite(scaled_c2)` guard never fires: `c3 ≠ 0` makes every scaled
coefficient a finite real, so that fallback branch is dropped. -/
noncomputable def solve_cubic (c0 c1 c2 c3 : ℝ) : List ℝ :=
  if c3 = 0 then solve_quadratic c0 c1 c2
  else
    let c3_recip := 1 / c3
    let scaled_c2 := c2 * ((1/3) * c3_recip)
    let scaled_c1 := c1 * ((1/3) * c3_recip)
    let scaled_c0 := c0 * c3_recip
    let d0 := -scaled_c2 * scaled_c2 + scaled_c1
    let d1 := -scaled_c1 * scaled_c2 + scaled_c0
    let d2 := scaled_c2 * scaled_c0 - scaled_c1 * scaled_c1
    let d := 4 * d0 * d2 - d1 * d1
    let de := -2 * scaled_c2 * d0 + d1
    if d < 0 then
      let sq := Real.sqrt (-(1/4) * d)
      let r := -(1/2) * de
      [cbrt (r + sq) + cbrt (r - sq) - scaled_c2]
    else if d = 0 then
      let t1 := Real.sqrt (-d0) * (if de ≥ 0 then 1 else -1)
      [t1 - scaled_c2, -2 * t1 - scaled_c2]
    else
      let th := atan2 (Real.sqrt d) (-de) * (1/3)
      let th_sin := Real.sin th
      let th_cos := Real.cos th
      let r0 := th_cos
      let ss3 := th_sin * Real.sqrt 3
      let r1 := (1/2) * (-th_cos + ss3)
      let r2 := (1/2) * (-th_cos - ss3)
      let t := 2 * Real.sqrt (-d0)
      [t * r0 - scaled_c2, t * r1 - scaled_c2, t * r2 - scaled_c2]

/-- C2: `solve_cubic` on the specified test polynomials: `x³ - 3x - 2` gives
`[-1, 2]` through the `d == 0` branch, `x³ - x` gives the root set
`{-1, 0, 1}` through the trigonometric `d > 0` branch, and the all-zero
degenerate input gives the single root `0`. -/
theorem solve_cubic_test_roots :
    solve_cubic (-2) (-3) 0 1 = [-1, 2] ∧
    solve_cubic 0 (-1) 0 1 = [1, 0, -1] ∧
    (∀ x : ℝ, x ∈ solve_cubic 0 (-1) 0 1 ↔ (x = -1 ∨ x = 0 ∨ x = 1)) ∧
    solve_cubic 0 0 0 0 = [0] := by
  have hcube2 : solve_cubic 0 (-1) 0 1 = [1, 0, -1] := by
    unfold solve_cubic
    norm_num
    have hy : (0:ℝ) < Real.sqrt 4 / Real.sqrt 27 := by positivity
    have hatan : atan2 (Real.sqrt 4 / Real.sqrt 27) 0 = Real.pi / 2 := by
      unfold atan2
      rw [if_neg (lt_irrefl 0), if_neg (lt_irrefl 0), if_pos hy]
    have h3 : Real.sqrt 3 ≠ 0 := by positivity
    rw [hatan, show Real.pi / 2 * (1/3) = Real.pi / 6 by ring,
      Real.cos_pi_div_six, Real.sin_pi_div_six]
    refine ⟨?_, by ring, ?_⟩
    · field_simp
    · field_simp
      ring
  refine ⟨?_, hcube2, ?_, ?_⟩
  · unfold solve_cubic
    norm_num [Real.sqrt_one]
  · intro x
    rw [hcube2]
    simp
    tauto
  · unfold solve_cubic solve_quadratic
    norm_num

/-- Return value of `solve_itp`: either the IEEE `NaN` sentinel (returned for
a non-bracketing interval) or an ordinary real value. -/
inductive ItpResult where
  | nan : ItpResult
  | val (x : ℝ) : ItpResult

/-- The mutable local state of `solve_itp`'s `while` loop: iteration count
`n`, bracket `a, b` with values `ya, yb`, midpoint `x1_2`, and the previous
truncated point `x_t`.  The source's `x1_2_prev` is never read afterwards and
is dropped. -/
structure ItpState where
  n : ℕ
  a : ℝ
  b : ℝ
  ya : ℝ
  yb : ℝ
  x1_2 : ℝ
  x_t : ℝ

/-- One iteration of the `while (b - a > eps_x)` loop body of `solve_itp`
(`common.cpp`): interpolate, truncate, project, evaluate and shrink the
bracket, then optionally the secant substep once `n >= n0`.  `Sum.inl x`
models an early `return x;`, `Sum.inr st` the state at the next iteration. -/
noncomputable def itpStep (f : ℝ → ℝ) (eps_t k1 : ℝ) (n0 : ℕ) (st : ItpState) :
    Sum ℝ ItpState :=
  let x_t_prev := st.x_t
  -- Interpolate
  let r := (st.yb - st.ya) / (st.b - st.a)
  let x_i := st.a - st.ya / r
  -- Truncate
  let sigma := ((1:ℝ)/2) ^ st.n
  let x_t' := x_i + sigma * (st.x1_2 - x_i)
  -- Project
  let delta := k1 * (st.b - st.a) ^ 2
  let x_p := x_t' + delta * (x_t_prev - x_t')
  let x_new := if |x_p - st.x1_2| < (1/2) * (st.b - st.a) then x_p else st.x1_2
  let y_new := f x_new
  if |y_new| < eps_t then Sum.inl x_new
  else
    let a' := if y_new * st.ya > 0 then x_new else st.a
    let b' := if y_new * st.ya > 0 then st.b else x_new
    let ya' := if y_new * st.ya > 0 then y_new else st.ya
    let yb' := if y_new * st.ya > 0 then st.yb else y_new
    let x1_2' := (1/2) * (a' + b')
    if st.n + 1 ≥ n0 then
      -- Switch to secant method
      let x_s := a' - ya' * (b' - a') / (yb' - ya')
      let y_s := f x_s
      if |y_s| < eps_t then Sum.inl x_s
      else
        let a'' := if y_s * ya' > 0 then x_s else a'
        let b'' := if y_s * ya' > 0 then b' else x_s
        let ya'' := if y_s * ya' > 0 then y_s else ya'
        let yb'' := if y_s * ya' > 0 then yb' else y_s
        Sum.inr ⟨st.n + 1, a'', b'', ya'', yb'', (1/2) * (a'' + b''), x_t'⟩
    else Sum.inr ⟨st.n + 1, a', b', ya', yb', x1_2', x_t'⟩

/-- The `while (b - a > eps_x)` loop of `solve_itp`, with an explicit fuel
argument for the (possibly unbounded over exact reals) iteration; `none`
means the fuel ran out before the loop exited. -/
noncomputable def itpLoop (f : ℝ → ℝ) (eps_x eps_t k1 : ℝ) (n0 : ℕ) :
    ℕ → ItpState → Option ItpResult
  | 0, _ => none
  | fuel + 1, st =>
    if st.b - st.a > eps_x then
      match itpStep f eps_t k1 n0 st with
      | Sum.inl x => some (ItpResult.val x)
      | Sum.inr st' => itpLoop f eps_x eps_t k1 n0 fuel st'
    else some (ItpResult.val st.x1_2)

/-- `solve_itp(f, a, b, epsilon, n0, k1, ya, yb)` from `common.cpp`:
ITP root finder on `[a, b]`; returns `quiet_NaN()` (modelled `ItpResult.nan`)
when `ya * yb > 0`. -/
noncomputable def solve_itp (fuel : ℕ) (f : ℝ → ℝ) (a b epsilon : ℝ)
    (n0 : ℕ) (k1 ya yb : ℝ) : Option ItpResult :=
  if ya * yb > 0 then some ItpResult.nan
  else
    let x1_2 := (1/2) * (a + b)
    let eps_x := epsilon * (b - a)
    let eps_t := epsilon * min |ya| |yb|
    itpLoop f eps_x eps_t k1 n0 fuel ⟨0, a, b, ya, yb, x1_2, x1_2⟩

theorem itpLoop_ne_nan (f : ℝ → ℝ) (eps_x eps_t k1 : ℝ) (n0 : ℕ) :
    ∀ (fuel : ℕ) (st : ItpState),
      itpLoop f eps_x eps_t k1 n0 fuel st ≠ some ItpResult.nan := by
  intro fuel
  induction fuel with
  | zero =>
    intro st
    simp [itpLoop]
  | succ fuel ih =>
    intro st
    rw [itpLoop]
    split
    · rcases h : itpStep f eps_t k1 n0 st with x | st'
      · simp
      · exact ih st'
    · simp

/-- C3: with a non-bracketing interval (`ya * yb > 0`) `solve_itp` returns
`NaN` — for every function `f`, so without consulting `f` at all; with the
bracketing precondition satisfied it never returns `NaN`, and on a concrete
bracketing instance it returns an ordinary value. -/
theorem solve_itp_nan_policy :
    (∀ (fuel : ℕ) (f : ℝ → ℝ) (a b epsilon : ℝ) (n0 : ℕ) (k1 ya yb : ℝ),
        ya * yb > 0 → solve_itp fuel f a b epsilon n0 k1 ya yb = some ItpResult.nan) ∧
    (∀ (fuel : ℕ) (f : ℝ → ℝ) (a b epsilon : ℝ) (n0 : ℕ) (k1 ya yb : ℝ),
        ¬ ya * yb > 0 →
          solve_itp fuel f a b epsilon n0 k1 ya yb ≠ some ItpResult.nan) ∧
    solve_itp 9 (fun x => x) (-1) 1 (1/2) 1 (1/5) (-1) 1 = some (ItpResult.val 0) := by
  refine ⟨?_, ?_, ?_⟩
  · intro fuel f a b epsilon n0 k1 ya yb h
    simp [solve_itp, h]
  · intro fuel f a b epsilon n0 k1 ya yb h
    simp only [solve_itp, if_neg h]
    exact itpLoop_ne_nan _ _ _ _ _ _ _
  · norm_num [solve_itp, itpLoop, itpStep]

/-- Witness for `solve_itp_nan_policy`: instantiating its quantified parts at
concrete inputs. -/
theorem solve_itp_nan_policy_witness :
    solve_itp 3 (fun x => x) 2 3 1 1 1 1 1 = some ItpResult.nan ∧
    solve_itp 0 (fun x => x) 2 3 1 1 1 (-1) 1 ≠ some ItpResult.nan :=
  ⟨solve_itp_nan_policy.1 3 (fun x => x) 2 3 1 1 1 1 1 (by norm_num),
   solve_itp_nan_policy.2.1 0 (fun x => x) 2 3 1 1 1 (-1) 1 (by norm_num)⟩

/-! ## `ParamCurveArclen::inv_arclen` (`param_curve.cpp`) -/

/-- Interface of a curve as consumed by `ParamCurveArclen::inv_arclen`:
total arc length at a given accuracy, and the arc length of a parameter
subsegment at a given accuracy (the source's
`subsegment(start, end)->arclen(inner_accuracy)` composite). -/
structure ArclenCurve where
  arclen : ℝ → ℝ
  segArclen : ℝ → ℝ → ℝ → ℝ

/-- The stateful closure `f` built inside `inv_arclen`, purified into
state-passing style; the state is the captured pair `(t_last, arclen_last)`,
initially `(0, 0)`. -/
noncomputable def invArclenF (c : ArclenCurve) (arclen inner_accuracy : ℝ)
    (t : ℝ) (s : ℝ × ℝ) : ℝ × (ℝ × ℝ) :=
  let t_last := s.1
  let arclen_last := s.2
  let dir : ℝ := if t > t_last then 1 else -1
  let start := if t > t_last then t_last else t
  let stop := if t > t_last then t else t_last
  let arc := c.segArclen start stop inner_accuracy
  let arclen_last' := arclen_last + arc * dir
  (arclen_last' - arclen, (t, arclen_last'))

/-- Shape of the `solve_itp` call made by `inv_arclen`, with the stateful
closure in state-passing style: closure, `a`, `b`, `epsilon`, `n0`, `k1`,
`ya`, `yb`, and the closure's initial captured state. -/
def ItpSolver : Type :=
  (ℝ → ℝ × ℝ → ℝ × (ℝ × ℝ)) → ℝ → ℝ → ℝ → ℕ → ℝ → ℝ → ℝ → ℝ × ℝ → ℝ

/-- `ParamCurveArclen::inv_arclen(arclen, accuracy)` from `param_curve.cpp`,
parametric in the ITP solver it invokes. -/
noncomputable def inv_arclen (solver : ItpSolver) (c : ArclenCurve)
    (arclen accuracy : ℝ) : ℝ :=
  if arclen ≤ 0 then 0
  else
    let total_arclen := c.arclen accuracy
    if arclen ≥ total_arclen then 1
    else
      let epsilon := accuracy / total_arclen
      let n_raw := 1 - (⌈Real.logb 2 epsilon⌉ : ℝ)
      let n := if n_raw < 0 then 0 else n_raw
      let inner_accuracy := accuracy / n
      solver (invArclenF c arclen inner_accuracy) 0 1 epsilon 1 (1/5)
        (-arclen) (total_arclen - arclen) (0, 0)

/-- C4: `inv_arclen` returns exactly `0` for `target <= 0`, exactly `1` for
`target >= arclen(accuracy)` (checked after the `<= 0` branch), and invokes
the ITP solver — whose result it returns unchanged — only for targets
strictly between those bounds.  Stated for an arbitrary solver, so the first
two cases provably never consult the solver. -/
theorem inv_arclen_degenerate_cases :
    ∀ (solver : ItpSolver) (c : ArclenCurve) (arclen accuracy : ℝ),
      (arclen ≤ 0 → inv_arclen solver c arclen accuracy = 0) ∧
      (0 < arclen → arclen ≥ c.arclen accuracy →
        inv_arclen solver c arclen accuracy = 1) ∧
      (0 < arclen → arclen < c.arclen accuracy →
        inv_arclen solver c arclen accuracy =
          solver
            (invArclenF c arclen (accuracy /
              (if 1 - (⌈Real.logb 2 (accuracy / c.arclen accuracy)⌉ : ℝ) < 0 then 0
               else 1 - (⌈Real.logb 2 (accuracy / c.arclen accuracy)⌉ : ℝ))))
            0 1 (accuracy / c.arclen accuracy) 1 (1/5)
            (-arclen) (c.arclen accuracy - arclen) (0, 0)) := by
  intro solver c arclen accuracy
  refine ⟨?_, ?_, ?_⟩
  · intro h
    simp [inv_arclen, h]
  · intro h0 h1
    rw [inv_arclen, if_neg (not_le.mpr h0), if_pos h1]
  · intro h0 h1
    rw [inv_arclen, if_neg (not_le.mpr h0), if_neg (not_le.mpr h1)]

/-- Witness for `inv_arclen_degenerate_cases` at a concrete solver and
curve. -/
theorem inv_arclen_degenerate_cases_witness :
    inv_arclen (fun _ _ _ _ _ _ _ _ _ => 37) ⟨fun _ => 10, fun _ _ _ => 0⟩ (-1) 1 = 0 ∧
    inv_arclen (fun _ _ _ _ _ _ _ _ _ => 37) ⟨fun _ => 10, fun _ _ _ => 0⟩ 20 1 = 1 ∧
    inv_arclen (fun _ _ _ _ _ _ _ _ _ => 37) ⟨fun _ => 10, fun _ _ _ => 0⟩ 5 1 = 37 := by
  refine ⟨(inv_arclen_degenerate_cases _ _ _ _).1 (by norm_num),
          (inv_arclen_degenerate_cases _ _ _ _).2.1 (by norm_num) (by norm_num),
          ?_⟩
  rw [(inv_arclen_degenerate_cases _ _ _ _).2.2 (by norm_num) (by norm_num)]

/-! ## Concrete curve kinds (`line.cpp`, `quadbez.cpp`, `cubicbez.cpp`) -/

/-- `Line {p0, p1}` (`line.hpp`). -/
structure Line where
  p0 : Point
  p1 : Point

namespace Line

/-- `Line::eval(t)`: `p0.lerp(p1, t)` (`line.cpp`). -/
noncomputable def eval (l : Line) (t : ℝ) : Point := l.p0.lerp l.p1 t

/-- `Line::subdivide()`: split at the midpoint (`line.cpp`). -/
noncomputable def subdivide (l : Line) : Line × Line :=
  (⟨l.p0, l.p0.midpoint l.p1⟩, ⟨l.p0.midpoint l.p1, l.p1⟩)

/-- `Line::start()`. -/
def start (l : Line) : Point := l.p0

/-- `Line::end()` (`end` is reserved in Lean). -/
def endPt (l : Line) : Point := l.p1

/-- `Line::signed_area()`: `p0.to_vec2().cross(p1.to_vec2()) * 0.5`. -/
noncomputable def signed_area (l : Line) : ℝ := l.p0.cross l.p1 * (1/2)

/-- `Line::arclen(accuracy)`: `(p1 - p0).hypot()`, the accuracy argument is
unused; `Vec2::hypot` is `sqrt(hypot2())` with `hypot2 = dot(*this)`. -/
noncomputable def arclen (l : Line) (_accuracy : ℝ) : ℝ :=
  Real.sqrt ((l.p1.x - l.p0.x) * (l.p1.x - l.p0.x) +
    (l.p1.y - l.p0.y) * (l.p1.y - l.p0.y))

end Line

/-- `QuadBez {p0, p1, p2}` (`quadbez.hpp`). -/
structure QuadBez where
  p0 : Point
  p1 : Point
  p2 : Point

namespace QuadBez

/-- `QuadBez::eval(t)`: Bernstein form
`p0*(mt*mt) + (p1*(mt*2) + p2*t)*t` with `mt = 1 - t` (`quadbez.cpp`). -/
noncomputable def eval (q : QuadBez) (t : ℝ) : Point :=
  ⟨q.p0.x * ((1 - t) * (1 - t)) + (q.p1.x * ((1 - t) * 2) + q.p2.x * t) * t,
   q.p0.y * ((1 - t) * (1 - t)) + (q.p1.y * ((1 - t) * 2) + q.p2.y * t) * t⟩

/-- `QuadBez::subdivide()` (`quadbez.cpp`): `(p0, mid(p0,p1), eval(0.5))`
and `(eval(0.5), mid(p1,p2), p2)`. -/
noncomputable def subdivide (q : QuadBez) : QuadBez × QuadBez :=
  (⟨q.p0, q.p0.midpoint q.p1, q.eval (1/2)⟩,
   ⟨q.eval (1/2), q.p1.midpoint q.p2, q.p2⟩)

/-- `QuadBez::start()`. -/
def start (q : QuadBez) : Point := q.p0

/-- `QuadBez::end()`. -/
def endPt (q : QuadBez) : Point := q.p2

end QuadBez

/-- `CubicBez {p0, p1, p2, p3}` (`cubicbez.hpp`). -/
structure CubicBez where
  p0 : Point
  p1 : Point
  p2 : Point
  p3 : Point

namespace CubicBez

/-- `CubicBez::eval(t)` exactly as written in `cubicbez.cpp`: the loop
`for (i = 0; i < 3; ++i) { b0 = b0.lerp(b1); b1 = b1.lerp(b2); b2 = b2.lerp(b3); }`
unrolled, followed by the trailing `return b0.lerp(b1, t)`.  (Note the
source performs three loop passes *and* a final lerp, one blend more than
de Casteljau's algorithm for a cubic.) -/
noncomputable def eval (c : CubicBez) (t : ℝ) : Point :=
  -- i = 0
  let a0 := c.p0.lerp c.p1 t
  let a1 := c.p1.lerp c.p2 t
  let a2 := c.p2.lerp c.p3 t
  -- i = 1
  let b0 := a0.lerp a1 t
  let b1 := a1.lerp a2 t
  let b2 := a2.lerp c.p3 t
  -- i = 2 (the loop also computes b2.lerp(p3, t), never read afterwards)
  let c0 := b0.lerp b1 t
  let c1 := b1.lerp b2 t
  c0.lerp c1 t

/-- `CubicBez::subdivide_concrete()` (`cubicbez.cpp`): de Casteljau split at
`t = 0.5`. -/
noncomputable def subdivide_concrete (c : CubicBez) : CubicBez × CubicBez :=
  let mid01 := c.p0.lerp c.p1 (1/2)
  let mid12 := c.p1.lerp c.p2 (1/2)
  let mid23 := c.p2.lerp c.p3 (1/2)
  let mid012 := mid01.lerp mid12 (1/2)
  let mid123 := mid12.lerp mid23 (1/2)
  let mid0123 := mid012.lerp mid123 (1/2)
  (⟨c.p0, mid01, mid012, mid0123⟩, ⟨mid0123, mid123, mid23, c.p3⟩)

/-- `CubicBez::start()`. -/
def start (c : CubicBez) : Point := c.p0

/-- `CubicBez::end()`. -/
def endPt (c : CubicBez) : Point := c.p3

end CubicBez

/-- C5 fails on the code: for the cubic with control points
`(0,0), (0,0), (0,0), (1,0)`, the left half produced by
`subdivide_concrete()` evaluated at `t = 1` is `(1/8, 0)` while the original
curve at `t = 1/2` is `(5/16, 0)` — `CubicBez::eval` performs one blend too
many, so `left.eval(t) = original.eval(t/2)` does not hold, though it does
for `Line::subdivide` and `QuadBez::subdivide` (proved in
`line_subdivide_consistent` / `quad_subdivide_consistent` below). -/
theorem cubic_subdivide_eval_mismatch :
    ((CubicBez.subdivide_concrete ⟨⟨0,0⟩, ⟨0,0⟩, ⟨0,0⟩, ⟨1,0⟩⟩).1.eval 1).x = 1/8 ∧
    ((⟨⟨0,0⟩, ⟨0,0⟩, ⟨0,0⟩, ⟨1,0⟩⟩ : CubicBez).eval (1/2)).x = 5/16 ∧
    (CubicBez.subdivide_concrete ⟨⟨0,0⟩, ⟨0,0⟩, ⟨0,0⟩, ⟨1,0⟩⟩).1.eval 1 ≠
      (⟨⟨0,0⟩, ⟨0,0⟩, ⟨0,0⟩, ⟨1,0⟩⟩ : CubicBez).eval (1/2) := by
  refine ⟨?_, ?_, ?_⟩
  · norm_num [CubicBez.subdivide_concrete, CubicBez.eval, Point.lerp]
  · norm_num [CubicBez.eval, Point.lerp]
  · intro h
    have hx := congrArg Point.x h
    norm_num [CubicBez.subdivide_concrete, CubicBez.eval, Point.lerp] at hx

/-- The subdivision-consistency property that C5 asserts, proved for `Line`
(whose `eval` is correct): endpoints and shared boundary agree and the two
halves reproduce the original parametrisation. -/
theorem line_subdivide_consistent (l : Line) (t : ℝ) :
    (l.subdivide.1.start = l.start ∧ l.subdivide.2.endPt = l.endPt ∧
      l.subdivide.1.endPt = l.subdivide.2.start) ∧
    l.subdivide.1.eval t = l.eval (t / 2) ∧
    l.subdivide.2.eval t = l.eval (1/2 + t / 2) := by
  refine ⟨⟨rfl, rfl, rfl⟩, ?_, ?_⟩ <;>
    · simp only [Line.subdivide, Line.eval, Point.lerp, Point.midpoint]
      rw [Point.ext_iff']
      constructor <;> ring

/-- The subdivision-consistency property that C5 asserts, proved for
`QuadBez` (whose `eval` is correct). -/
theorem quad_subdivide_consistent (q : QuadBez) (t : ℝ) :
    (q.subdivide.1.start = q.start ∧ q.subdivide.2.endPt = q.endPt ∧
      q.subdivide.1.endPt = q.subdivide.2.start) ∧
    q.subdivide.1.eval t = q.eval (t / 2) ∧
    q.subdivide.2.eval t = q.eval (1/2 + t / 2) := by
  refine ⟨⟨rfl, rfl, rfl⟩, ?_, ?_⟩ <;>
    · simp only [QuadBez.subdivide, QuadBez.eval, Point.lerp, Point.midpoint]
      rw [Point.ext_iff']
      constructor <;> ring

/-! ## Path elements and `BezPath` (`path_el.cpp`, `bezpath.cpp`) -/

/-- A path command (`path_el.hpp`): a `PathElType` tag with the operand
points that tag uses (`MoveTo`/`LineTo`: end point; `QuadTo`: control and
end; `CurveTo`: two controls and end; `ClosePath`: none), matching the
equality semantics of `operator==(const PathEl&, const PathEl&)`. -/
inductive PathEl where
  | MoveTo (p : Point)
  | LineTo (p : Point)
  | QuadTo (p1 p2 : Point)
  | CurveTo (p1 p2 p3 : Point)
  | ClosePath

/-- `BezPath` is its owned `std::vector<PathEl>` element sequence. -/
abbrev BezPath := List PathEl

/-- 2D affine transform: the six-coefficient column-major matrix of
`affine.hpp` (`coeffs[0..5]`). -/
structure Affine where
  c0 : ℝ
  c1 : ℝ
  c2 : ℝ
  c3 : ℝ
  c4 : ℝ
  c5 : ℝ

/-- `Affine::operator*(const Point&)` (`affine.cpp`). -/
noncomputable def Affine.apply (A : Affine) (p : Point) : Point :=
  ⟨A.c0 * p.x + A.c2 * p.y + A.c4, A.c1 * p.x + A.c3 * p.y + A.c5⟩

/-- `operator*(const Affine&, const PathEl&)` (`path_el.cpp`): transform the
operand points, keeping the tag. -/
noncomputable def affineEl (A : Affine) : PathEl → PathEl
  | PathEl.MoveTo p => PathEl.MoveTo (A.apply p)
  | PathEl.LineTo p => PathEl.LineTo (A.apply p)
  | PathEl.QuadTo p1 p2 => PathEl.QuadTo (A.apply p1) (A.apply p2)
  | PathEl.CurveTo p1 p2 p3 =>
      PathEl.CurveTo (A.apply p1) (A.apply p2) (A.apply p3)
  | PathEl.ClosePath => PathEl.ClosePath

namespace BezPath

/-- The condition asserted throughout `bezpath.cpp`:
`elements_.empty() || elements_.front().type == PathElType::MoveTo`. -/
def startsWithMoveTo : BezPath → Bool
  | [] => true
  | PathEl.MoveTo _ :: _ => true
  | _ => false

/-- `BezPath::push(el)`: `push_back` followed by
`assert(elements_.empty() || elements_.front().type == MoveTo)`;
`none` models a tripped assertion (fail fast). -/
def push (p : BezPath) (el : PathEl) : Option BezPath :=
  if startsWithMoveTo (p ++ [el]) then some (p ++ [el]) else none

/-- `BezPath::from_vec(v)`:
`assert(v.empty() || v.front().type == MoveTo)` then adopt `v`. -/
def from_vec (v : List PathEl) : Option BezPath :=
  if startsWithMoveTo v then some v else none

/-- `BezPath::move_to(p)`. -/
def move_to (p : BezPath) (pt : Point) : Option BezPath :=
  push p (PathEl.MoveTo pt)

/-- `BezPath::line_to(p)`: `assert(!elements_.empty())` then push. -/
def line_to (p : BezPath) (pt : Point) : Option BezPath :=
  match p with
  | [] => none
  | _ => push p (PathEl.LineTo pt)

/-- `BezPath::quad_to(p1, p2)`: `assert(!elements_.empty())` then push. -/
def quad_to (p : BezPath) (pt1 pt2 : Point) : Option BezPath :=
  match p with
  | [] => none
  | _ => push p (PathEl.QuadTo pt1 pt2)

/-- `BezPath::curve_to(p1, p2, p3)`: `assert(!elements_.empty())` then push. -/
def curve_to (p : BezPath) (pt1 pt2 pt3 : Point) : Option BezPath :=
  match p with
  | [] => none
  | _ => push p (PathEl.CurveTo pt1 pt2 pt3)

/-- `BezPath::close_path()`: `assert(!elements_.empty())` then push. -/
def close_path (p : BezPath) : Option BezPath :=
  match p with
  | [] => none
  | _ => push p PathEl.ClosePath

/-- `BezPath::pop()`: the removed last element (if any) and the remaining
path. -/
def pop (p : BezPath) : Option PathEl × BezPath :=
  (p.getLast?, p.dropLast)

/-- `BezPath::truncate(len)`: shrink to the first `len` elements when `len`
is smaller than the current size, otherwise no-op. -/
def truncate (p : BezPath) (len : ℕ) : BezPath :=
  if len < p.length then p.take len else p

/-- `BezPath::apply_affine(affine)`: transform every element in place. -/
noncomputable def apply_affine (p : BezPath) (A : Affine) : BezPath :=
  p.map (affineEl A)

/-- `BezPath::is_empty()`: no element other than `MoveTo`/`ClosePath`. -/
def is_empty (p : BezPath) : Bool :=
  p.all fun el =>
    match el with
    | PathEl.MoveTo _ => true
    | PathEl.ClosePath => true
    | _ => false

end BezPath

/-- The end-point scan inside `reverse_subpath` for a `ClosePath` element:
walk the buffered subpath backwards (`rbegin`) and take the most recent
`MoveTo` point, if any. -/
def lastMoveToPoint (els : List PathEl) : Option Point :=
  els.reverse.findSome? fun el =>
    match el with
    | PathEl.MoveTo p => some p
    | _ => none

/-- The "find end point" loop of `reverse_subpath` (`bezpath.cpp`): fold over
the buffered subpath, tracking the explicit end point (starting from
`start_pt`); a `ClosePath` resets it to the most recent `MoveTo` point when
one exists. -/
def subpathEndPoint (start_pt : Point) (els : List PathEl) : Point :=
  els.foldl
    (fun acc el =>
      match el with
      | PathEl.MoveTo p => p
      | PathEl.LineTo p => p
      | PathEl.QuadTo _ p2 => p2
      | PathEl.CurveTo _ _ p3 => p3
      | PathEl.ClosePath =>
          match lastMoveToPoint els with
          | some p => p
          | none => acc)
    start_pt

/-- `reverse_subpath(start_pt, els, reversed)` (`bezpath.cpp`): a fresh
`move_to` to the subpath's end point, then the buffered elements replayed in
reverse — each with its own operand points (`line_to(it->point)`,
`quad_to(it->point, it->point2)`,
`curve_to(it->point2, it->point, it->point3)`), `MoveTo` skipped.  The
source appends through `BezPath::move_to`/`line_to`/… whose assertions can
never fire here (the first append is the `move_to`), so the appends are
modelled directly. -/
def reverse_subpath (start_pt : Point) (els : List PathEl)
    (reversed : BezPath) : BezPath :=
  if els.isEmpty then reversed
  else
    (reversed ++ [PathEl.MoveTo (subpathEndPoint start_pt els)]) ++
      els.reverse.filterMap fun el =>
        match el with
        | PathEl.LineTo p => some (PathEl.LineTo p)
        | PathEl.QuadTo p1 p2 => some (PathEl.QuadTo p1 p2)
        | PathEl.CurveTo p1 p2 p3 => some (PathEl.CurveTo p2 p1 p3)
        | PathEl.ClosePath => some PathEl.ClosePath
        | PathEl.MoveTo _ => none

/-- One step of the subpath-buffering loop of `BezPath::reverse_subpaths`:
state is `(result, current_subpath, start_pt)`. -/
def reverseSubpathsStep (st : BezPath × List PathEl × Point) (el : PathEl) :
    BezPath × List PathEl × Point :=
  match el with
  | PathEl.MoveTo q =>
      if st.2.1.isEmpty then (st.1, [PathEl.MoveTo q], q)
      else (reverse_subpath st.2.2 st.2.1 st.1, [PathEl.MoveTo q], q)
  | e => (st.1, st.2.1 ++ [e], st.2.2)

/-- The trailing `if (!current_subpath.empty()) reverse_subpath(...)` flush
of `BezPath::reverse_subpaths`. -/
def reverseFinish (st : BezPath × List PathEl × Point) : BezPath :=
  if st.2.1.isEmpty then st.1 else reverse_subpath st.2.2 st.2.1 st.1

/-- `BezPath::reverse_subpaths()` (`bezpath.cpp`): buffer each subpath,
flushing through `reverse_subpath` at every new `MoveTo` and once at the
end.  `start_pt` is default-initialised to the origin. -/
def reverse_subpaths (p : BezPath) : BezPath :=
  reverseFinish (p.foldl reverseSubpathsStep ([], [], ⟨0, 0⟩))

/-- `ray_intersection_count(p1, p2, pt)` (`bezpath.cpp`): contribution of the
edge `p1 → p2` to the winding number of `pt`, by intersecting the rightward
horizontal ray from `pt`; edges whose endpoint `y`s differ by less than
`1e-12` contribute nothing. -/
noncomputable def ray_intersection_count (p1 p2 pt : Point) : ℤ :=
  if |p1.y - p2.y| < 1e-12 then 0
  else if (p1.y > pt.y ∧ p2.y ≤ pt.y) ∨ (p2.y > pt.y ∧ p1.y ≤ pt.y) then
    if p1.x + (pt.y - p1.y) / (p2.y - p1.y) * (p2.x - p1.x) > pt.x then
      if p2.y > p1.y then 1 else -1
    else 0
  else 0

namespace BezPath

/-- Fold state shared by `BezPath::area`/`perimeter` (`sum`) and the point
tracking of the element loops. -/
structure SumState where
  sum : ℝ
  last_pt : Point
  start_pt : Point
  have_subpath : Bool

/-- One step of the `BezPath::area` element loop; `QuadTo`/`CurveTo` fall
into the source's `default: // TODO: Handle curves properly` and change
nothing (not even `last_pt`). -/
noncomputable def areaStep (st : SumState) (el : PathEl) : SumState :=
  match el with
  | PathEl.MoveTo p => ⟨st.sum, p, p, true⟩
  | PathEl.LineTo p =>
      ⟨(if st.have_subpath then st.sum + Line.signed_area ⟨st.last_pt, p⟩
        else st.sum), p, st.start_pt, st.have_subpath⟩
  | PathEl.ClosePath =>
      ⟨(if st.have_subpath ∧ st.last_pt ≠ st.start_pt then
          st.sum + Line.signed_area ⟨st.last_pt, st.start_pt⟩
        else st.sum), st.last_pt, st.start_pt, false⟩
  | _ => st

/-- `BezPath::area()` (`bezpath.cpp`). -/
noncomputable def area (p : BezPath) : ℝ :=
  (p.foldl areaStep ⟨0, ⟨0, 0⟩, ⟨0, 0⟩, false⟩).sum

/-- One step of the `BezPath::perimeter` element loop. -/
noncomputable def perimeterStep (accuracy : ℝ) (st : SumState) (el : PathEl) :
    SumState :=
  match el with
  | PathEl.MoveTo p => ⟨st.sum, p, p, true⟩
  | PathEl.LineTo p =>
      ⟨(if st.have_subpath then st.sum + Line.arclen ⟨st.last_pt, p⟩ accuracy
        else st.sum), p, st.start_pt, st.have_subpath⟩
  | PathEl.ClosePath =>
      ⟨(if st.have_subpath ∧ st.last_pt ≠ st.start_pt then
          st.sum + Line.arclen ⟨st.last_pt, st.start_pt⟩ accuracy
        else st.sum), st.last_pt, st.start_pt, false⟩
  | _ => st

/-- `BezPath::perimeter(accuracy)` (`bezpath.cpp`). -/
noncomputable def perimeter (p : BezPath) (accuracy : ℝ) : ℝ :=
  (p.foldl (perimeterStep accuracy) ⟨0, ⟨0, 0⟩, ⟨0, 0⟩, false⟩).sum

/-- Fold state of the `BezPath::winding` element loop. -/
structure WindState where
  winding : ℤ
  last_pt : Point
  start_pt : Point
  have_subpath : Bool

/-- One step of the `BezPath::winding` element loop. -/
noncomputable def windingStep (pt : Point) (st : WindState) (el : PathEl) :
    WindState :=
  match el with
  | PathEl.MoveTo p => ⟨st.winding, p, p, true⟩
  | PathEl.LineTo p =>
      ⟨(if st.have_subpath then
          st.winding + ray_intersection_count st.last_pt p pt
        else st.winding), p, st.start_pt, st.have_subpath⟩
  | PathEl.ClosePath =>
      ⟨(if st.have_subpath ∧ st.last_pt ≠ st.start_pt then
          st.winding + ray_intersection_count st.last_pt st.start_pt pt
        else st.winding), st.last_pt, st.start_pt, false⟩
  | _ => st

/-- `BezPath::winding(pt)` (`bezpath.cpp`). -/
noncomputable def winding (p : BezPath) (pt : Point) : ℤ :=
  (p.foldl (windingStep pt) ⟨0, ⟨0, 0⟩, ⟨0, 0⟩, false⟩).winding

end BezPath

/-- `Rect {x0, y0, x1, y1}` (`rect.hpp`); default-constructed is all zero. -/
structure Rect where
  x0 : ℝ
  y0 : ℝ
  x1 : ℝ
  y1 : ℝ

/-- `Rect::union_rect(other)` (`rect.cpp`). -/
noncomputable def Rect.union_rect (r other : Rect) : Rect :=
  ⟨min r.x0 other.x0, min r.y0 other.y0, max r.x1 other.x1, max r.y1 other.y1⟩

/-- `Line::bounding_box()` (`line.cpp`). -/
noncomputable def Line.bounding_box (l : Line) : Rect :=
  ⟨min l.p0.x l.p1.x, min l.p0.y l.p1.y, max l.p0.x l.p1.x, max l.p0.y l.p1.y⟩

namespace BezPath

/-- Fold state of the `BezPath::bounding_box` element loop. -/
structure BBoxState where
  bbox : Rect
  first : Bool
  last_pt : Point
  start_pt : Point
  have_subpath : Bool

/-- One step of the `BezPath::bounding_box` element loop; `QuadTo`/`CurveTo`
fall into the source's `default: // TODO: Handle curves properly`. -/
noncomputable def bboxStep (st : BBoxState) (el : PathEl) : BBoxState :=
  match el with
  | PathEl.MoveTo p =>
      ⟨(if st.first then (⟨p.x, p.y, p.x, p.y⟩ : Rect)
        else st.bbox.union_rect ⟨p.x, p.y, p.x, p.y⟩), false, p, p, true⟩
  | PathEl.LineTo p =>
      if st.have_subpath then
        ⟨(if st.first then Line.bounding_box ⟨st.last_pt, p⟩
          else st.bbox.union_rect (Line.bounding_box ⟨st.last_pt, p⟩)),
         false, p, st.start_pt, st.have_subpath⟩
      else ⟨st.bbox, st.first, p, st.start_pt, st.have_subpath⟩
  | PathEl.ClosePath =>
      if st.have_subpath ∧ st.last_pt ≠ st.start_pt then
        ⟨(if st.first then Line.bounding_box ⟨st.last_pt, st.start_pt⟩
          else st.bbox.union_rect (Line.bounding_box ⟨st.last_pt, st.start_pt⟩)),
         false, st.last_pt, st.start_pt, false⟩
      else ⟨st.bbox, st.first, st.last_pt, st.start_pt, false⟩
  | _ => st

/-- `BezPath::bounding_box()` (`bezpath.cpp`): `Rect::invalid()` for the
empty path, otherwise the union fold over the straight edges.  `none` stands
for the invalid rectangle (see `bboxIsFinite`). -/
noncomputable def bounding_box (p : BezPath) : Option Rect :=
  if p.isEmpty then none
  else some (p.foldl bboxStep ⟨⟨0, 0, 0, 0⟩, true, ⟨0, 0⟩, ⟨0, 0⟩, false⟩).bbox

/-- Modelled from the spec: `Rect::invalid()` is called by
`BezPath::bounding_box` but is defined nowhere under `src/`.  The spec says
the empty path yields "a designated invalid/infinite-inverted rectangle"
for which `is_finite()` is false, while a rectangle built from (real)
coordinates is always finite; `none` represents the invalid rectangle, so
`is_finite` is false exactly there. -/
def bboxIsFinite : Option Rect → Bool
  | none => false
  | some _ => true

end BezPath

/-- The open polyline `(0,0) → (1,0) → (1,1)` used to exercise
`reverse_subpaths`. -/
noncomputable def c6Path : BezPath :=
  [PathEl.MoveTo ⟨0, 0⟩, PathEl.LineTo ⟨1, 0⟩, PathEl.LineTo ⟨1, 1⟩]

/-- C6 fails on the code: reversing `(0,0) → (1,0) → (1,1)` yields
`MoveTo (1,1), LineTo (1,1), LineTo (1,0)` — the replay emits each element
with its *own* end point instead of the previous anchor, so the reversed
subpath starts with a degenerate segment and never reaches the original
start `(0,0)`; the geometrically reversed path
`MoveTo (1,1), LineTo (1,0), LineTo (0,0)` is not produced. -/
theorem reverse_subpaths_keeps_own_endpoints :
    reverse_subpaths c6Path =
      [PathEl.MoveTo ⟨1, 1⟩, PathEl.LineTo ⟨1, 1⟩, PathEl.LineTo ⟨1, 0⟩] ∧
    reverse_subpaths c6Path ≠
      [PathEl.MoveTo ⟨1, 1⟩, PathEl.LineTo ⟨1, 0⟩, PathEl.LineTo ⟨0, 0⟩] := by
  have h1 : reverse_subpaths c6Path =
      [PathEl.MoveTo ⟨1, 1⟩, PathEl.LineTo ⟨1, 1⟩, PathEl.LineTo ⟨1, 0⟩] := rfl
  refine ⟨h1, ?_⟩
  rw [h1]
  intro h
  have h2 := congrArg (fun l => l.get? 1) h
  norm_num [Point.ext_iff'] at h2

/-- The closed unit square `(0,0)-(1,0)-(1,1)-(0,1)-close`. -/
noncomputable def squarePath : BezPath :=
  [PathEl.MoveTo ⟨0, 0⟩, PathEl.LineTo ⟨1, 0⟩, PathEl.LineTo ⟨1, 1⟩,
   PathEl.LineTo ⟨0, 1⟩, PathEl.ClosePath]

/-- C7: for the closed unit square built by
`move_to(0,0); line_to(1,0); line_to(1,1); line_to(0,1); close_path()`:
the construction sequence succeeds and yields exactly that element list,
`winding((0.5,0.5)) = 1`, `winding((2,2)) = 0`, `area() = 1`, and
`perimeter(accuracy) = 4` for every accuracy. -/
theorem square_path_invariants :
    ((((BezPath.move_to [] ⟨0, 0⟩).bind fun p => BezPath.line_to p ⟨1, 0⟩).bind
        fun p => BezPath.line_to p ⟨1, 1⟩).bind fun p =>
          (BezPath.line_to p ⟨0, 1⟩).bind fun p => BezPath.close_path p) =
      some squarePath ∧
    BezPath.winding squarePath ⟨1/2, 1/2⟩ = 1 ∧
    BezPath.winding squarePath ⟨2, 2⟩ = 0 ∧
    BezPath.area squarePath = 1 ∧
    (∀ accuracy : ℝ, BezPath.perimeter squarePath accuracy = 4) := by
  refine ⟨rfl, ?_, ?_, ?_, ?_⟩
  · norm_num [squarePath, BezPath.winding, BezPath.windingStep,
      ray_intersection_count, Point.ext_iff']
  · norm_num [squarePath, BezPath.winding, BezPath.windingStep,
      ray_intersection_count, Point.ext_iff']
  · norm_num [squarePath, BezPath.area, BezPath.areaStep, Line.signed_area,
      Point.cross, Point.ext_iff']
  · intro accuracy
    norm_num [squarePath, BezPath.perimeter, BezPath.perimeterStep,
      Line.arclen, Point.ext_iff', Real.sqrt_one]

/-- C8: the default-constructed (empty) `BezPath` reports `is_empty`, zero
area, zero perimeter at every accuracy, zero winding at every point, and a
bounding box that is not finite. -/
theorem empty_path_queries :
    BezPath.is_empty [] = true ∧
    BezPath.area [] = 0 ∧
    (∀ accuracy : ℝ, BezPath.perimeter [] accuracy = 0) ∧
    (∀ pt : Point, BezPath.winding [] pt = 0) ∧
    BezPath.bboxIsFinite (BezPath.bounding_box []) = false :=
  ⟨rfl, rfl, fun _ => rfl, fun _ => rfl, rfl⟩

/-- C10: `ray_intersection_count` returns `0` for every edge whose endpoint
`y`-coordinates differ by less than `1e-12` — including the nearly
horizontal edge `(1, -4e-13) → (1, 5e-13)`, which straddles the rightward
ray from the origin and intersects it at `x = 1 > 0` yet still contributes
nothing; for every other edge the result is `±1` exactly when the half-open
straddle test holds and the ray intersection lies strictly right of the
query point. -/
theorem ray_intersection_eps_policy :
    (∀ p1 p2 pt : Point, |p1.y - p2.y| < 1e-12 →
        ray_intersection_count p1 p2 pt = 0) ∧
    (((5e-13 : ℝ) > 0 ∧ (-4e-13 : ℝ) ≤ 0 ∧
        (1 : ℝ) + (0 - -4e-13) / (5e-13 - -4e-13) * (1 - 1) > 0) ∧
      ray_intersection_count ⟨1, -4e-13⟩ ⟨1, 5e-13⟩ ⟨0, 0⟩ = 0) ∧
    (∀ p1 p2 pt : Point, ¬ |p1.y - p2.y| < 1e-12 →
        ray_intersection_count p1 p2 pt =
          if ((p1.y > pt.y ∧ p2.y ≤ pt.y) ∨ (p2.y > pt.y ∧ p1.y ≤ pt.y)) ∧
              p1.x + (pt.y - p1.y) / (p2.y - p1.y) * (p2.x - p1.x) > pt.x then
            (if p2.y > p1.y then 1 else -1)
          else 0) := by
  refine ⟨?_, ⟨⟨by norm_num, by norm_num, by norm_num⟩, ?_⟩, ?_⟩
  · intro p1 p2 pt h
    rw [ray_intersection_count, if_pos h]
  · norm_num [ray_intersection_count, abs_of_pos]
  · intro p1 p2 pt h
    rw [ray_intersection_count, if_neg h]
    by_cases h1 : (p1.y > pt.y ∧ p2.y ≤ pt.y) ∨ (p2.y > pt.y ∧ p1.y ≤ pt.y)
    · by_cases h2 :
        p1.x + (pt.y - p1.y) / (p2.y - p1.y) * (p2.x - p1.x) > pt.x
      · simp [h1, h2]
      · simp [h1, h2]
    · simp [h1]

/-! ## The leading-`MoveTo` invariant (C9) -/

theorem startsWithMoveTo_dropLast {p : BezPath}
    (h : BezPath.startsWithMoveTo p = true) :
    BezPath.startsWithMoveTo p.dropLast = true := by
  match p with
  | [] => rfl
  | [e] => rfl
  | e :: r :: rs =>
    cases e <;> simp_all [BezPath.startsWithMoveTo, List.dropLast]

theorem startsWithMoveTo_take {p : BezPath} (n : ℕ)
    (h : BezPath.startsWithMoveTo p = true) :
    BezPath.startsWithMoveTo (p.take n) = true := by
  match p, n with
  | [], _ => simpa using h
  | _ :: _, 0 => rfl
  | e :: rest, n + 1 =>
    cases e <;> simp_all [BezPath.startsWithMoveTo, List.take]

theorem startsWithMoveTo_map_affine {p : BezPath} (A : Affine)
    (h : BezPath.startsWithMoveTo p = true) :
    BezPath.startsWithMoveTo (p.map (affineEl A)) = true := by
  match p with
  | [] => rfl
  | e :: rest =>
    cases e <;> simp_all [BezPath.startsWithMoveTo, affineEl, List.map]

theorem startsWithMoveTo_reverse_subpath {res : BezPath}
    (sp : Point) (els : List PathEl)
    (h : BezPath.startsWithMoveTo res = true) :
    BezPath.startsWithMoveTo (reverse_subpath sp els res) = true := by
  rw [reverse_subpath]
  split
  · exact h
  · match res with
    | [] => rfl
    | e :: rest =>
      cases e <;> simp_all [BezPath.startsWithMoveTo, List.cons_append]

theorem startsWithMoveTo_reverseFinish {res : BezPath}
    {cur : List PathEl} {sp : Point}
    (h : BezPath.startsWithMoveTo res = true) (els : List PathEl) :
    BezPath.startsWithMoveTo
      (reverseFinish (els.foldl reverseSubpathsStep (res, cur, sp))) = true := by
  induction els generalizing res cur sp with
  | nil =>
    rw [List.foldl_nil, reverseFinish]
    split
    · exact h
    · exact startsWithMoveTo_reverse_subpath _ _ h
  | cons el els ih =>
    rw [List.foldl_cons]
    cases el with
    | MoveTo q =>
      rw [reverseSubpathsStep]
      split
      · exact ih h
      · exact ih (startsWithMoveTo_reverse_subpath _ _ h)
    | LineTo q => exact ih h
    | QuadTo q1 q2 => exact ih h
    | CurveTo q1 q2 q3 => exact ih h
    | ClosePath => exact ih h

theorem push_some_startsWithMoveTo {p : BezPath} {el : PathEl} {p' : BezPath}
    (h : BezPath.push p el = some p') :
    BezPath.startsWithMoveTo p' = true := by
  rw [BezPath.push] at h
  split at h
  · cases h
    assumption
  · cases h

/-- A `BezPath` obtainable through the public construction and mutation
interface of `bezpath.cpp` (a successful — assertion-free — run of each
operation). -/
inductive Reachable : BezPath → Prop where
  | empty : Reachable []
  | from_vec (v : List PathEl) (p : BezPath) :
      BezPath.from_vec v = some p → Reachable p
  | push (p : BezPath) (el : PathEl) (p' : BezPath) :
      Reachable p → BezPath.push p el = some p' → Reachable p'
  | move_to (p : BezPath) (pt : Point) (p' : BezPath) :
      Reachable p → BezPath.move_to p pt = some p' → Reachable p'
  | line_to (p : BezPath) (pt : Point) (p' : BezPath) :
      Reachable p → BezPath.line_to p pt = some p' → Reachable p'
  | quad_to (p : BezPath) (pt1 pt2 : Point) (p' : BezPath) :
      Reachable p → BezPath.quad_to p pt1 pt2 = some p' → Reachable p'
  | curve_to (p : BezPath) (pt1 pt2 pt3 : Point) (p' : BezPath) :
      Reachable p → BezPath.curve_to p pt1 pt2 pt3 = some p' → Reachable p'
  | close_path (p : BezPath) (p' : BezPath) :
      Reachable p → BezPath.close_path p = some p' → Reachable p'
  | pop (p : BezPath) : Reachable p → Reachable (BezPath.pop p).2
  | truncate (p : BezPath) (n : ℕ) :
      Reachable p → Reachable (BezPath.truncate p n)
  | apply_affine (p : BezPath) (A : Affine) :
      Reachable p → Reachable (BezPath.apply_affine p A)
  | reverse_subpaths (p : BezPath) :
      Reachable p → Reachable (Kurbo.reverse_subpaths p)

/-- C9: every `BezPath` reachable through the public construction/mutation
operations is empty or begins with a `MoveTo`, and attempts to violate the
invariant fail fast: `line_to` on an empty path and `push` of a non-`MoveTo`
first element both trip an assertion (`none`) instead of being corrected. -/
theorem bezpath_moveto_invariant :
    (∀ p : BezPath, Reachable p → BezPath.startsWithMoveTo p = true) ∧
    (∀ pt : Point, BezPath.line_to [] pt = none) ∧
    (∀ pt : Point, BezPath.push [] (PathEl.LineTo pt) = none) := by
  refine ⟨?_, fun _ => rfl, fun _ => rfl⟩
  intro p hp
  induction hp with
  | empty => rfl
  | from_vec v p h =>
    rw [BezPath.from_vec] at h
    split at h
    · cases h
      assumption
    · cases h
  | push p el p' _ h _ => exact push_some_startsWithMoveTo h
  | move_to p pt p' _ h _ => exact push_some_startsWithMoveTo h
  | line_to p pt p' _ h _ =>
    match p, h with
    | _ :: _, h => exact push_some_startsWithMoveTo h
  | quad_to p pt1 pt2 p' _ h _ =>
    match p, h with
    | _ :: _, h => exact push_some_startsWithMoveTo h
  | curve_to p pt1 pt2 pt3 p' _ h _ =>
    match p, h with
    | _ :: _, h => exact push_some_startsWithMoveTo h
  | close_path p p' _ h _ =>
    match p, h with
    | _ :: _, h => exact push_some_startsWithMoveTo h
  | pop p _ ih => exact startsWithMoveTo_dropLast ih
  | truncate p n _ ih =>
    rw [BezPath.truncate]
    split
    · exact startsWithMoveTo_take n ih
    · exact ih
  | apply_affine p A _ ih => exact startsWithMoveTo_map_affine A ih
  | reverse_subpaths p _ _ =>
    show BezPath.startsWithMoveTo
      (reverseFinish (p.foldl reverseSubpathsStep ([], [], ⟨0, 0⟩))) = true
    exact startsWithMoveTo_reverseFinish (show BezPath.startsWithMoveTo [] = true from rfl) p

/-- Witness for `bezpath_moveto_invariant`: the empty path is reachable and
satisfies the invariant, and the two fail-fast cases at concrete points. -/
theorem bezpath_moveto_invariant_witness :
    BezPath.startsWithMoveTo [] = true ∧
    BezPath.line_to [] ⟨1, 2⟩ = none ∧
    BezPath.push [] (PathEl.LineTo ⟨3, 4⟩) = none :=
  ⟨bezpath_moveto_invariant.1 [] Reachable.empty,
   bezpath_moveto_invariant.2.1 ⟨1, 2⟩,
   bezpath_moveto_invariant.2.2 ⟨3, 4⟩⟩

/-- Witness for `ray_intersection_eps_policy`: its quantified parts applied
at concrete points. -/
theorem ray_intersection_eps_policy_witness :
    ray_intersection_count ⟨0, 0⟩ ⟨0, 0⟩ ⟨0, 0⟩ = 0 ∧
    ray_intersection_count ⟨0, 0⟩ ⟨0, 2⟩ ⟨1, 1⟩ = 0 := by
  constructor
  · exact ray_intersection_eps_policy.1 ⟨0, 0⟩ ⟨0, 0⟩ ⟨0, 0⟩ (by norm_num)
  · rw [ray_intersection_eps_policy.2.2 ⟨0, 0⟩ ⟨0, 2⟩ ⟨1, 1⟩ (by norm_num)]
    norm_num

end Kurbo
